import Mathlib

/-!
Verification development for the survey-dashboard program (src/project.py).
The table model, the multi-value aggregator `process_multiselect_column`,
the loader `load_data`, the country filter and the top-15 truncation are
embedded as executable Lean definitions, and the spec's claims about them
are settled as theorems below.
-/

namespace StreamitProject

/-- A cell of the survey table: `none` models a missing value (pandas `NaN`). -/
abbrev Cell := Option String

/-- In-memory tabular structure produced by `pd.read_csv`: a list of column
names and a list of rows, each row a list of cells aligned with `cols`. -/
structure Table where
  cols : List String
  rows : List (List Cell)
deriving Repr, DecidableEq

/-- Index of a column name in a column list (first match), modelling pandas
column lookup by name. -/
def colIndex : List String → String → Option Nat
  | [], _ => none
  | c0 :: cs, c => if c0 = c then some 0 else (colIndex cs c).map (· + 1)

/-- The value of row `r` at the column named `c` (missing when the column is
absent or the row is short). -/
def Table.cell (t : Table) (r : List Cell) (c : String) : Cell :=
  match colIndex t.cols c with
  | some i => r.getD i none
  | none => none

/-- `df.dropna(subset=[c])`: keep the rows whose value in column `c` is not
missing. -/
def Table.dropnaOn (t : Table) (c : String) : Table :=
  { t with rows := t.rows.filter (fun r => (t.cell r c).isSome) }

/-- Python `str.split(';')` on the character list of a string: literal split,
no trimming, empty tokens between consecutive separators preserved, and the
empty string splits to `[[]]` (one empty token). -/
def splitSemiAux : List Char → List (List Char)
  | [] => [[]]
  | ch :: cs =>
    if ch = ';' then [] :: splitSemiAux cs
    else
      match splitSemiAux cs with
      | [] => [[ch]]
      | t :: ts => (ch :: t) :: ts

/-- Python `s.split(';')`. -/
def pySplitSemi (s : String) : List String :=
  (splitSemiAux s.data).map List.asString

/-- `.str.split(';')` on one cell; a missing cell contributes no tokens (in
the program such cells are dropped before this point of the pipeline). -/
def cellTokens : Cell → List String
  | some s => pySplitSemi s
  | none => []

/-- `df[c].str.split(';').explode()`: the tokens of every row of column `c`,
flattened in row order. -/
def Table.columnTokens (t : Table) (c : String) : List String :=
  (t.rows.map (fun r => t.cell r c)).flatMap cellTokens

/-- The flattened token sequence of the non-missing rows of column `c`. -/
def flatTokens (t : Table) (c : String) : List String :=
  (t.dropnaOn c).columnTokens c

/-- One counting step: record one more occurrence of token `tok`, keeping
distinct tokens in first-seen order. -/
def tallyInsert : List (String × Nat) → String → List (String × Nat)
  | [], tok => [(tok, 1)]
  | q :: qs, tok => if q.1 = tok then (q.1, q.2 + 1) :: qs else q :: tallyInsert qs tok

/-- Occurrence counts of a token sequence, distinct tokens in first-seen
order. -/
def tally (l : List String) : List (String × Nat) :=
  l.foldl tallyInsert []

/-- Stable insertion into a descending-count list: the inserted pair goes in
front of every pair of count at most its own (the list it is inserted into
holds pairs that came later in the original order). -/
def insertByCount (p : String × Nat) : List (String × Nat) → List (String × Nat)
  | [] => [p]
  | q :: qs => if q.2 ≤ p.2 then p :: q :: qs else q :: insertByCount p qs

/-- Stable sort by descending count (insertion sort). -/
def sortByCountDesc (l : List (String × Nat)) : List (String × Nat) :=
  l.foldr insertByCount []

/-- `Series.value_counts()`: occurrence counts of the values, ordered by
descending count, ties kept in first-seen order (pandas sorts the counts of
the unique values, which are produced in order of first appearance, with a
stable sort). -/
def value_counts (l : List String) : List (String × Nat) :=
  sortByCountDesc (tally l)

/-- Result of the aggregator: the counts plus the warning emitted, if any. -/
structure AggResult where
  counts : List (String × Nat)
  warning : Option String
deriving Repr, DecidableEq

/-- `process_multiselect_column(df, column_name)` (src/project.py:24-38). -/
def process_multiselect_column (t : Table) (column_name : String) : AggResult :=
  if column_name ∈ t.cols then
    let df_processed := t.dropnaOn column_name
    if df_processed.rows.isEmpty then { counts := [], warning := none }
    else { counts := value_counts (df_processed.columnTokens column_name), warning := none }
  else
    { counts := [], warning := some (column_name ++ " 컬럼이 데이터에 없습니다.") }

/-- What the filesystem holds at a path: no file (`FileNotFoundError`), a
file that fails to parse (any other exception, with its message), or a
parsed table. -/
inductive FileContent where
  | missing
  | malformed (msg : String)
  | parsed (t : Table)
deriving Repr, DecidableEq

/-- Result of `load_data`: the returned pair plus the error shown, if any. -/
structure LoadResult where
  table : Option Table
  countries : List String
  errorMsg : Option String
deriving Repr, DecidableEq

/-- First-seen deduplication, as `Series.unique()`. -/
def uniqueFirstSeen (l : List String) : List String :=
  l.foldl (fun acc x => if x ∈ acc then acc else acc ++ [x]) []

/-- Strict lexicographic order on character lists by code point. -/
def lexLt : List Char → List Char → Bool
  | [], [] => false
  | [], _ :: _ => true
  | _ :: _, [] => false
  | a :: as, b :: bs =>
    if a.toNat < b.toNat then true
    else if b.toNat < a.toNat then false
    else lexLt as bs

/-- Python string comparison `s <= t`: lexicographic by code point. -/
def pyStrLe (s t : String) : Bool :=
  !(lexLt t.data s.data)

/-- Stable ascending insertion for strings (lexicographic code-point order,
as Python string comparison). -/
def insertAsc (x : String) : List String → List String
  | [] => [x]
  | y :: ys => if pyStrLe x y then x :: y :: ys else y :: insertAsc x ys

/-- Ascending sort, as `ndarray.sort()`. -/
def sortAsc (l : List String) : List String :=
  l.foldr insertAsc []

/-- The non-missing values of column `c`, in row order
(`data['Country'].dropna()`). -/
def columnNonMissing (t : Table) (c : String) : List String :=
  t.rows.filterMap (fun r => t.cell r c)

/-- `load_data(filepath)` (src/project.py:7-22), over an explicit
filesystem mapping paths to contents. -/
def load_data (fs : String → FileContent) (filepath : String) : LoadResult :=
  match fs filepath with
  | .parsed data =>
    if "Country" ∈ data.cols then
      { table := some data
        countries := sortAsc (uniqueFirstSeen (columnNonMissing data "Country"))
        errorMsg := none }
    else
      { table := some data, countries := [], errorMsg := none }
  | .missing =>
    { table := none, countries := [], errorMsg := some "파일이 존재하지 않습니다." }
  | .malformed e =>
    { table := none, countries := [], errorMsg := some ("데이터 로드 중 오류 발생: " ++ e) }

/-- The three sidebar menu entries. -/
inductive Menu where
  | home | usage | detailed
deriving Repr, DecidableEq

/-- What the page area shows. -/
inductive Screen where
  | errorScreen | homeScreen | usageScreen | detailedScreen
deriving Repr, DecidableEq

/-- The module-level guard (src/project.py:135-162): when loading failed
(`df_public is None`) only the load-failure error renders, and no analysis
page does; otherwise the page selected in the sidebar renders. -/
def appRender (fs : String → FileContent) (menu : Menu) : Screen :=
  match (load_data fs "./survey_results_small.csv").table with
  | none => Screen.errorScreen
  | some _ =>
    match menu with
    | Menu.home => Screen.homeScreen
    | Menu.usage => Screen.usageScreen
    | Menu.detailed => Screen.detailedScreen

/-- The country filter used by both analysis pages (src/project.py:57-62 and
88-91): the sentinel "전체" ("All") keeps the whole table, otherwise keep the
rows whose Country value equals the selection (a missing Country never
equals a selection, as the pandas comparison with `NaN` is false). -/
def filterCountry (t : Table) (selected_country : String) : Table :=
  if selected_country = "전체" then t
  else { t with rows := t.rows.filter (fun r => t.cell r "Country" == some selected_country) }

/-- The counts computed for a (country, topic) selection: filter by country,
then aggregate the topic column. -/
def countsForSelection (t : Table) (selected_country column : String) : List (String × Nat) :=
  (process_multiselect_column (filterCountry t selected_country) column).counts

/-- `.head(15)` on the sorted counts (src/project.py:68 and 119). -/
def top15 (l : List (String × Nat)) : List (String × Nat) :=
  l.take 15

/-- Total number of occurrences recorded in a counts list. -/
def sumCounts (l : List (String × Nat)) : Nat :=
  (l.map Prod.snd).sum

/-- The round-trip example table of the spec: one multi-value column, three
rows, the last one missing. -/
def exampleLangTable : Table :=
  { cols := ["LanguageHaveWorkedWith"]
    rows := [[some "Python;Go"], [some "Go"], [none]] }

/-- The country-filter example table of the spec. -/
def exampleCountryTable : Table :=
  { cols := ["Country", "Lang"]
    rows := [[some "KR", some "Go"], [some "US", some "Go;Rust"]] }

/-- A table exercising malformed delimiter sequences and untrimmed
whitespace: a double separator and a token with leading whitespace. -/
def exampleMalformedTable : Table :=
  { cols := ["LanguageHaveWorkedWith"]
    rows := [[some "Go;;Rust"], [some " Go"]] }

/-- A table whose only multi-value column is missing in every row. -/
def exampleAllMissingTable : Table :=
  { cols := ["LanguageHaveWorkedWith"]
    rows := [[none], [none]] }

/-- A FrequencyCount with 20 distinct tokens in descending-count order. -/
def exampleTwentyCounts : List (String × Nat) :=
  [("L20", 20), ("L19", 19), ("L18", 18), ("L17", 17), ("L16", 16),
   ("L15", 15), ("L14", 14), ("L13", 13), ("L12", 12), ("L11", 11),
   ("L10", 10), ("L09", 9), ("L08", 8), ("L07", 7), ("L06", 6),
   ("L05", 5), ("L04", 4), ("L03", 3), ("L02", 2), ("L01", 1)]

/-- Rejoin the pieces of a semicolon split, putting one `';'` between
consecutive pieces (the inverse direction of `splitSemiAux`). -/
def joinSemi : List (List Char) → List Char
  | [] => []
  | [t] => t
  | t :: ts => t ++ ';' :: joinSemi ts

/-! ### Lemmas about the stable descending sort of the counts -/

theorem insertByCount_perm (p : String × Nat) (l : List (String × Nat)) :
    List.Perm (insertByCount p l) (p :: l) := by
  induction l with
  | nil => exact List.Perm.refl _
  | cons q qs ih =>
    simp only [insertByCount]
    split
    · exact List.Perm.refl _
    · exact (ih.cons q).trans (List.Perm.swap p q qs)

theorem sortByCountDesc_perm (l : List (String × Nat)) :
    List.Perm (sortByCountDesc l) l := by
  induction l with
  | nil => exact List.Perm.refl _
  | cons x xs ih =>
    simp only [sortByCountDesc, List.foldr_cons]
    exact (insertByCount_perm x _).trans (List.Perm.cons x ih)

theorem insertByCount_pairwise (p : String × Nat) {l : List (String × Nat)}
    (h : List.Pairwise (fun a b => b.2 ≤ a.2) l) :
    List.Pairwise (fun a b => b.2 ≤ a.2) (insertByCount p l) := by
  induction l with
  | nil => simp [insertByCount]
  | cons q qs ih =>
    obtain ⟨h1, h2⟩ := List.pairwise_cons.mp h
    by_cases hq : q.2 ≤ p.2
    · rw [insertByCount, if_pos hq]
      refine List.pairwise_cons.mpr ⟨?_, h⟩
      intro z hz
      rcases List.mem_cons.mp hz with rfl | hz'
      · exact hq
      · exact le_trans (h1 z hz') hq
    · rw [insertByCount, if_neg hq]
      refine List.pairwise_cons.mpr ⟨?_, ih h2⟩
      intro z hz
      rcases List.mem_cons.mp ((insertByCount_perm p qs).mem_iff.mp hz) with rfl | hz'
      · omega
      · exact h1 z hz'

theorem sortByCountDesc_sorted (l : List (String × Nat)) :
    List.Pairwise (fun a b => b.2 ≤ a.2) (sortByCountDesc l) := by
  induction l with
  | nil => simp [sortByCountDesc]
  | cons x xs ih =>
    simp only [sortByCountDesc, List.foldr_cons]
    exact insertByCount_pairwise x ih

theorem insertByCount_filter (p : String × Nat) (l : List (String × Nat)) (k : Nat) :
    (insertByCount p l).filter (fun q => decide (q.2 = k))
      = if p.2 = k then p :: l.filter (fun q => decide (q.2 = k))
        else l.filter (fun q => decide (q.2 = k)) := by
  induction l with
  | nil => by_cases hp : p.2 = k <;> simp [insertByCount, hp]
  | cons q qs ih =>
    by_cases hq2 : q.2 ≤ p.2
    · rw [insertByCount, if_pos hq2]
      by_cases hp : p.2 = k <;> simp [List.filter_cons, hp]
    · rw [insertByCount, if_neg hq2]
      by_cases hp : p.2 = k
      · by_cases hq : q.2 = k
        · omega
        · simp [List.filter_cons, hq, hp, ih]
      · by_cases hq : q.2 = k <;> simp [List.filter_cons, hq, hp, ih]

theorem sortByCountDesc_filter (l : List (String × Nat)) (k : Nat) :
    (sortByCountDesc l).filter (fun q => decide (q.2 = k))
      = l.filter (fun q => decide (q.2 = k)) := by
  induction l with
  | nil => rfl
  | cons x xs ih =>
    simp only [sortByCountDesc, List.foldr_cons] at ih ⊢
    rw [insertByCount_filter]
    by_cases hx : x.2 = k <;> simp [List.filter_cons, hx, ih]

/-! ### Lemmas about the tally -/

theorem tallyInsert_sumCounts (acc : List (String × Nat)) (tok : String) :
    sumCounts (tallyInsert acc tok) = sumCounts acc + 1 := by
  induction acc with
  | nil => simp [tallyInsert, sumCounts]
  | cons q qs ih =>
    by_cases h : q.1 = tok <;>
      simp only [tallyInsert, if_pos, if_neg, h] <;>
      simp [sumCounts] at ih ⊢ <;> omega

theorem foldl_tallyInsert_sumCounts (l : List String) :
    ∀ acc, sumCounts (List.foldl tallyInsert acc l) = sumCounts acc + l.length := by
  induction l with
  | nil => intro acc; simp
  | cons t ts ih =>
    intro acc
    simp only [List.foldl_cons, List.length_cons]
    rw [ih, tallyInsert_sumCounts]
    omega

theorem tally_sumCounts (l : List String) : sumCounts (tally l) = l.length := by
  simpa [tally, sumCounts] using foldl_tallyInsert_sumCounts l []

theorem tallyInsert_pos {acc : List (String × Nat)} (tok : String)
    (h : ∀ q ∈ acc, 0 < q.2) : ∀ q ∈ tallyInsert acc tok, 0 < q.2 := by
  induction acc with
  | nil =>
    intro q hq
    simp [tallyInsert] at hq
    simp [hq]
  | cons p ps ih =>
    intro q hq
    by_cases hp : p.1 = tok
    · rw [tallyInsert, if_pos hp] at hq
      rcases List.mem_cons.mp hq with rfl | hq'
      · simp
      · exact h q (List.mem_cons_of_mem p hq')
    · rw [tallyInsert, if_neg hp] at hq
      rcases List.mem_cons.mp hq with rfl | hq'
      · exact h q (List.mem_cons_self q ps)
      · exact ih (fun r hr => h r (List.mem_cons_of_mem p hr)) q hq'

theorem tally_pos (l : List String) : ∀ q ∈ tally l, 0 < q.2 := by
  have key : ∀ acc, (∀ q ∈ acc, 0 < q.2) →
      ∀ q ∈ List.foldl tallyInsert acc l, 0 < q.2 := by
    induction l with
    | nil => intro acc h q hq; exact h q (by simpa using hq)
    | cons t ts ih =>
      intro acc h q hq
      simp only [List.foldl_cons] at hq
      exact ih (tallyInsert acc t) (tallyInsert_pos t h) q hq
  exact key [] (by simp)

theorem sumCounts_congr_perm {l₁ l₂ : List (String × Nat)} (h : List.Perm l₁ l₂) :
    sumCounts l₁ = sumCounts l₂ :=
  (h.map Prod.snd).sum_eq

/-! ### Lemmas unfolding the aggregator on its three branches -/

theorem colIndex_eq_none {cs : List String} {c : String} (h : c ∉ cs) :
    colIndex cs c = none := by
  induction cs with
  | nil => rfl
  | cons c0 cs ih =>
    simp only [List.mem_cons, not_or] at h
    have hne : ¬c0 = c := fun e => h.1 e.symm
    simp [colIndex, hne, ih h.2]

theorem cell_eq_none {t : Table} {c : String} (h : c ∉ t.cols) (r : List Cell) :
    t.cell r c = none := by
  simp [Table.cell, colIndex_eq_none h]

theorem dropnaOn_rows_eq_nil {t : Table} {c : String} (h : c ∉ t.cols) :
    (t.dropnaOn c).rows = [] := by
  simp only [Table.dropnaOn, List.filter_eq_nil_iff]
  intro r _
  simp [cell_eq_none h]

theorem flatTokens_eq_nil {t : Table} {c : String} (h : (t.dropnaOn c).rows = []) :
    flatTokens t c = [] := by
  simp [flatTokens, Table.columnTokens, h]

theorem process_of_not_mem {t : Table} {c : String} (h : c ∉ t.cols) :
    process_multiselect_column t c
      = { counts := [], warning := some (c ++ " 컬럼이 데이터에 없습니다.") } := by
  simp [process_multiselect_column, h]

theorem process_of_empty {t : Table} {c : String} (hmem : c ∈ t.cols)
    (h : (t.dropnaOn c).rows = []) :
    process_multiselect_column t c = { counts := [], warning := none } := by
  simp [process_multiselect_column, hmem, h]

theorem process_of_nonempty {t : Table} {c : String} (hmem : c ∈ t.cols)
    (h : ¬(t.dropnaOn c).rows = []) :
    process_multiselect_column t c
      = { counts := value_counts (flatTokens t c), warning := none } := by
  simp [process_multiselect_column, hmem, flatTokens, List.isEmpty_iff, h]

/-! ### Lemmas about the literal semicolon split -/

theorem splitSemiAux_ne_nil (cs : List Char) : splitSemiAux cs ≠ [] := by
  induction cs with
  | nil => simp [splitSemiAux]
  | cons ch cs ih =>
    by_cases h : ch = ';'
    · simp [splitSemiAux, h]
    · simp only [splitSemiAux, if_neg h]
      cases hcs : splitSemiAux cs with
      | nil => simp
      | cons t ts => simp

theorem splitSemiAux_length (cs : List Char) :
    (splitSemiAux cs).length = cs.count ';' + 1 := by
  induction cs with
  | nil => simp [splitSemiAux]
  | cons ch cs ih =>
    by_cases h : ch = ';'
    · subst h
      simp [splitSemiAux, List.count_cons, ih]
    · simp only [splitSemiAux, if_neg h]
      cases hcs : splitSemiAux cs with
      | nil => exact absurd hcs (splitSemiAux_ne_nil cs)
      | cons t ts =>
        rw [hcs] at ih
        have hbeq : (ch == ';') = false := by simpa using h
        simp [List.count_cons, hbeq] at ih ⊢
        omega

theorem splitSemiAux_join (cs : List Char) : joinSemi (splitSemiAux cs) = cs := by
  induction cs with
  | nil => rfl
  | cons ch cs ih =>
    by_cases h : ch = ';'
    · subst h
      simp only [splitSemiAux, if_pos rfl]
      cases hcs : splitSemiAux cs with
      | nil => exact absurd hcs (splitSemiAux_ne_nil cs)
      | cons t ts =>
        rw [hcs] at ih
        simpa [joinSemi] using ih
    · simp only [splitSemiAux, if_neg h]
      cases hcs : splitSemiAux cs with
      | nil => exact absurd hcs (splitSemiAux_ne_nil cs)
      | cons t ts =>
        rw [hcs] at ih
        cases ts with
        | nil => simpa [joinSemi] using ih
        | cons t2 ts2 => simpa [joinSemi] using ih

/-! ### The claims -/

/-- C1: for every table and column name present in the table, the aggregator
returns the first-seen tally of the flattened token sequence of the
non-missing rows, reordered by descending count with a stable reordering
(the result is a permutation of the tally, it is sorted by descending count,
and each class of equal counts keeps the tally's first-seen order); on the
spec's example table the result is exactly `[("Go",2), ("Python",1)]`. -/
theorem countFrequencies_sorted_stable_tally :
    (∀ (t : Table) (c : String), c ∈ t.cols →
      List.Pairwise (fun a b => b.2 ≤ a.2) (process_multiselect_column t c).counts
        ∧ List.Perm (process_multiselect_column t c).counts (tally (flatTokens t c))
        ∧ ∀ k : Nat,
            (process_multiselect_column t c).counts.filter (fun q => decide (q.2 = k))
              = (tally (flatTokens t c)).filter (fun q => decide (q.2 = k)))
    ∧ (process_multiselect_column exampleLangTable "LanguageHaveWorkedWith").counts
        = [("Go", 2), ("Python", 1)] := by
  constructor
  · intro t c hmem
    by_cases h : (t.dropnaOn c).rows = []
    · rw [process_of_empty hmem h, flatTokens_eq_nil h]
      exact ⟨by simp, List.Perm.refl _, fun k => rfl⟩
    · rw [process_of_nonempty hmem h]
      exact ⟨sortByCountDesc_sorted (tally (flatTokens t c)),
        sortByCountDesc_perm (tally (flatTokens t c)),
        fun k => sortByCountDesc_filter (tally (flatTokens t c)) k⟩
  · decide

theorem countFrequencies_sorted_stable_tally_witness :
    ("LanguageHaveWorkedWith" ∈ exampleLangTable.cols)
    ∧ List.Pairwise (fun a b => b.2 ≤ a.2)
        (process_multiselect_column exampleLangTable "LanguageHaveWorkedWith").counts :=
  ⟨by decide,
   (countFrequencies_sorted_stable_tally.1 exampleLangTable "LanguageHaveWorkedWith"
      (by decide)).1⟩

/-- C2: splitting of a non-missing cell on `';'` is literal: the number of
tokens is always the number of semicolons plus one (so nothing is filtered),
rejoining the tokens with `';'` restores the original character sequence (so
nothing is trimmed), `"Go;;Rust"` splits to `["Go", "", "Rust"]` with the
empty token preserved, and the full pipeline counts the empty token and the
untrimmed token `" Go"` as tokens of their own. -/
theorem splitting_is_literal :
    (∀ cs : List Char, (splitSemiAux cs).length = cs.count ';' + 1)
    ∧ (∀ cs : List Char, joinSemi (splitSemiAux cs) = cs)
    ∧ pySplitSemi "Go;;Rust" = ["Go", "", "Rust"]
    ∧ (process_multiselect_column exampleMalformedTable "LanguageHaveWorkedWith").counts
        = [("Go", 1), ("", 1), ("Rust", 1), (" Go", 1)] :=
  ⟨splitSemiAux_length, splitSemiAux_join, by decide, by decide⟩

/-- C3: for every table and every column name that is not a column of the
table, the aggregator returns the empty counts and emits the
missing-column warning (it is a total function, so it never raises). -/
theorem missing_column_warns_empty :
    ∀ (t : Table) (c : String), c ∉ t.cols →
      process_multiselect_column t c
        = { counts := [], warning := some (c ++ " 컬럼이 데이터에 없습니다.") } :=
  fun _ _ h => process_of_not_mem h

theorem missing_column_warns_empty_witness :
    process_multiselect_column exampleLangTable "NonexistentCol"
      = { counts := [],
          warning := some ("NonexistentCol" ++ " 컬럼이 데이터에 없습니다.") } :=
  missing_column_warns_empty exampleLangTable "NonexistentCol" (by decide)

/-- C9: the aggregator is deterministic: two calls with identical table
content and identical column name yield identical results, ordering
included (the embedding of the code is a pure function of its inputs). -/
theorem countFrequencies_deterministic :
    ∀ (t₁ t₂ : Table) (c₁ c₂ : String), t₁ = t₂ → c₁ = c₂ →
      process_multiselect_column t₁ c₁ = process_multiselect_column t₂ c₂ := by
  intro t₁ t₂ c₁ c₂ ht hc
  rw [ht, hc]

theorem countFrequencies_deterministic_witness :
    process_multiselect_column exampleLangTable "LanguageHaveWorkedWith"
      = process_multiselect_column exampleLangTable "LanguageHaveWorkedWith" :=
  countFrequencies_deterministic exampleLangTable exampleLangTable
    "LanguageHaveWorkedWith" "LanguageHaveWorkedWith" rfl rfl

/-- C10: for every table and column, every count in the aggregator's result
is at least 1, and the counts sum to the length of the flattened token
sequence of the non-missing rows (so no zero-count token ever appears). -/
theorem counts_positive_sum_tokens :
    ∀ (t : Table) (c : String),
      (∀ q ∈ (process_multiselect_column t c).counts, 1 ≤ q.2)
      ∧ sumCounts (process_multiselect_column t c).counts = (flatTokens t c).length := by
  intro t c
  by_cases hmem : c ∈ t.cols
  · by_cases h : (t.dropnaOn c).rows = []
    · rw [process_of_empty hmem h, flatTokens_eq_nil h]
      exact ⟨by simp, by simp [sumCounts]⟩
    · rw [process_of_nonempty hmem h]
      constructor
      · intro q hq
        exact tally_pos (flatTokens t c) q
          ((sortByCountDesc_perm (tally (flatTokens t c))).mem_iff.mp hq)
      · calc sumCounts (value_counts (flatTokens t c))
            = sumCounts (tally (flatTokens t c)) :=
              sumCounts_congr_perm (sortByCountDesc_perm _)
          _ = (flatTokens t c).length := tally_sumCounts _
  · rw [process_of_not_mem hmem, flatTokens_eq_nil (dropnaOn_rows_eq_nil hmem)]
    exact ⟨by simp, by simp [sumCounts]⟩

theorem counts_positive_sum_tokens_witness :
    1 ≤ (("Go", 2) : String × Nat).2
    ∧ sumCounts (process_multiselect_column exampleLangTable "LanguageHaveWorkedWith").counts
        = (flatTokens exampleLangTable "LanguageHaveWorkedWith").length :=
  ⟨(counts_positive_sum_tokens exampleLangTable "LanguageHaveWorkedWith").1
      ("Go", 2) (by decide),
   (counts_positive_sum_tokens exampleLangTable "LanguageHaveWorkedWith").2⟩

theorem dropnaOn_idem (t : Table) (c : String) :
    (t.dropnaOn c).dropnaOn c = t.dropnaOn c := by
  simp only [Table.dropnaOn, Table.cell, List.filter_filter, Bool.and_self]

/-- C4: missing rows are excluded before any tokenizing: running the
aggregator on the table with the missing rows already dropped gives the
same result as running it on the original table; and when a column of the
table has no non-missing row left, the result is the empty counts. -/
theorem dropna_before_tokenize :
    (∀ (t : Table) (c : String),
        process_multiselect_column (t.dropnaOn c) c = process_multiselect_column t c)
    ∧ (∀ (t : Table) (c : String), c ∈ t.cols → (t.dropnaOn c).rows = [] →
        process_multiselect_column t c = { counts := [], warning := none }) := by
  constructor
  · intro t c
    by_cases hmem : c ∈ t.cols
    · have hmem' : c ∈ (t.dropnaOn c).cols := hmem
      by_cases h : (t.dropnaOn c).rows = []
      · have h' : ((t.dropnaOn c).dropnaOn c).rows = [] := by rw [dropnaOn_idem]; exact h
        rw [process_of_empty hmem' h', process_of_empty hmem h]
      · have h' : ¬((t.dropnaOn c).dropnaOn c).rows = [] := by rw [dropnaOn_idem]; exact h
        rw [process_of_nonempty hmem' h', process_of_nonempty hmem h]
        simp [flatTokens, dropnaOn_idem]
    · have hmem' : c ∉ (t.dropnaOn c).cols := hmem
      rw [process_of_not_mem hmem', process_of_not_mem hmem]
  · intro t c hmem h
    exact process_of_empty hmem h

theorem dropna_before_tokenize_witness :
    process_multiselect_column exampleAllMissingTable "LanguageHaveWorkedWith"
      = { counts := [], warning := none } :=
  dropna_before_tokenize.2 exampleAllMissingTable "LanguageHaveWorkedWith"
    (by decide) (by decide)

/-- C5: on a path holding no file, `load_data` yields no table and shows the
file-not-found error; when that is the app's data path, the app renders the
error screen whatever menu is selected, so no analysis screen renders. -/
theorem load_missing_file_fails :
    ∀ (fs : String → FileContent) (path : String), fs path = FileContent.missing →
      (load_data fs path).table = none
      ∧ (load_data fs path).errorMsg = some "파일이 존재하지 않습니다."
      ∧ (path = "./survey_results_small.csv" →
          ∀ menu : Menu, appRender fs menu = Screen.errorScreen) := by
  intro fs path h
  refine ⟨by simp [load_data, h], by simp [load_data, h], ?_⟩
  rintro rfl menu
  simp [appRender, load_data, h]

theorem load_missing_file_fails_witness :
    (load_data (fun _ => FileContent.missing) "./survey_results_small.csv").table = none
    ∧ appRender (fun _ => FileContent.missing) Menu.usage = Screen.errorScreen :=
  ⟨(load_missing_file_fails (fun _ => FileContent.missing)
      "./survey_results_small.csv" rfl).1,
   (load_missing_file_fails (fun _ => FileContent.missing)
      "./survey_results_small.csv" rfl).2.2 rfl Menu.usage⟩

/-- C7: the country filter restricts to the rows whose Country equals the
selected value, while the sentinel "전체" ("All") keeps the whole table; on
the spec's example, filtering to "KR" then aggregating Lang yields
`[("Go",1)]` and the sentinel yields `[("Go",2), ("Rust",1)]`. -/
theorem country_filter_restricts :
    (∀ (t : Table) (sel : String), sel ≠ "전체" →
        (filterCountry t sel).rows
          = t.rows.filter (fun r => t.cell r "Country" == some sel))
    ∧ (∀ t : Table, filterCountry t "전체" = t)
    ∧ countsForSelection exampleCountryTable "KR" "Lang" = [("Go", 1)]
    ∧ countsForSelection exampleCountryTable "전체" "Lang" = [("Go", 2), ("Rust", 1)] := by
  refine ⟨?_, ?_, by decide, by decide⟩
  · intro t sel h
    simp [filterCountry, h]
  · intro t
    simp [filterCountry]

theorem country_filter_restricts_witness :
    (filterCountry exampleCountryTable "KR").rows
      = exampleCountryTable.rows.filter
          (fun r => exampleCountryTable.cell r "Country" == some "KR") :=
  country_filter_restricts.1 exampleCountryTable "KR" (by decide)

/-- C8: the presentation truncation returns exactly the first 15 entries of
the counts in their existing order: the result is a prefix of the counts,
its length is the minimum of 15 and the number of entries, a FrequencyCount
of at most 15 entries is returned whole, and on a FrequencyCount with 20
distinct tokens exactly the first 15 come back, in order. -/
theorem top15_takes_first_15 :
    (∀ l : List (String × Nat), top15 l ++ l.drop 15 = l)
    ∧ (∀ l : List (String × Nat), (top15 l).length = min 15 l.length)
    ∧ (∀ l : List (String × Nat), l.length ≤ 15 → top15 l = l)
    ∧ top15 exampleTwentyCounts
        = [("L20", 20), ("L19", 19), ("L18", 18), ("L17", 17), ("L16", 16),
           ("L15", 15), ("L14", 14), ("L13", 13), ("L12", 12), ("L11", 11),
           ("L10", 10), ("L09", 9), ("L08", 8), ("L07", 7), ("L06", 6)] := by
  refine ⟨?_, ?_, ?_, by decide⟩
  · intro l
    exact List.take_append_drop 15 l
  · intro l
    exact List.length_take 15 l
  · intro l h
    exact List.take_of_length_le h

theorem top15_takes_first_15_witness :
    top15 [(("Go" : String), 2), ("Python", 1)] = [("Go", 2), ("Python", 1)] :=
  top15_takes_first_15.2.2.1 [("Go", 2), ("Python", 1)] (by decide)

/-! ### Lemmas about the code-point order on strings and the country sort -/

theorem lexLt_asymm : ∀ a b : List Char, lexLt a b = true → lexLt b a = false := by
  intro a
  induction a with
  | nil =>
    intro b h
    cases b with
    | nil => simp [lexLt] at h
    | cons y ys => simp [lexLt]
  | cons x xs ih =>
    intro b h
    cases b with
    | nil => simp [lexLt] at h
    | cons y ys =>
      simp only [lexLt] at h ⊢
      by_cases h1 : x.toNat < y.toNat
      · rw [if_neg (by omega), if_pos h1]
      · by_cases h2 : y.toNat < x.toNat
        · rw [if_neg h1, if_pos h2] at h
          exact absurd h (by simp)
        · rw [if_neg h1, if_neg h2] at h
          rw [if_neg h2, if_neg h1]
          exact ih ys h

theorem lexLt_resolve :
    ∀ (a b c : List Char), lexLt a c = true → lexLt a b = true ∨ lexLt b c = true := by
  intro a
  induction a with
  | nil =>
    intro b c h
    cases b with
    | nil => exact Or.inr h
    | cons y ys => exact Or.inl (by simp [lexLt])
  | cons x xs ih =>
    intro b c h
    cases c with
    | nil => simp [lexLt] at h
    | cons z zs =>
      cases b with
      | nil => exact Or.inr (by simp [lexLt])
      | cons y ys =>
        simp only [lexLt] at h ⊢
        by_cases h1 : x.toNat < y.toNat
        · exact Or.inl (by rw [if_pos h1])
        · by_cases h2 : y.toNat < z.toNat
          · exact Or.inr (by rw [if_pos h2])
          · by_cases h3 : x.toNat < z.toNat
            · omega
            · by_cases h4 : z.toNat < x.toNat
              · rw [if_neg h3, if_pos h4] at h
                exact absurd h (by simp)
              · rw [if_neg h3, if_neg h4] at h
                rcases ih ys zs h with hl | hr
                · refine Or.inl ?_
                  rw [if_neg h1, if_neg (show ¬y.toNat < x.toNat by omega)]
                  exact hl
                · refine Or.inr ?_
                  rw [if_neg h2, if_neg (show ¬z.toNat < y.toNat by omega)]
                  exact hr

theorem pyStrLe_total {x y : String} (h : pyStrLe x y = false) : pyStrLe y x = true := by
  simp only [pyStrLe, Bool.not_eq_false'] at h
  simp only [pyStrLe, lexLt_asymm _ _ h, Bool.not_false]

theorem pyStrLe_trans {x y z : String} (hxy : pyStrLe x y = true)
    (hyz : pyStrLe y z = true) : pyStrLe x z = true := by
  simp only [pyStrLe, Bool.not_eq_true'] at hxy hyz ⊢
  cases hv : lexLt z.data x.data
  · rfl
  · rcases lexLt_resolve z.data y.data x.data hv with h | h
    · rw [h] at hyz
      exact absurd hyz (by simp)
    · rw [h] at hxy
      exact absurd hxy (by simp)

theorem insertAsc_perm (x : String) (l : List String) :
    List.Perm (insertAsc x l) (x :: l) := by
  induction l with
  | nil => exact List.Perm.refl _
  | cons y ys ih =>
    simp only [insertAsc]
    split
    · exact List.Perm.refl _
    · exact (ih.cons y).trans (List.Perm.swap x y ys)

theorem sortAsc_perm (l : List String) : List.Perm (sortAsc l) l := by
  induction l with
  | nil => exact List.Perm.refl _
  | cons x xs ih =>
    simp only [sortAsc, List.foldr_cons]
    exact (insertAsc_perm x _).trans (List.Perm.cons x ih)

theorem insertAsc_pairwise (x : String) {l : List String}
    (h : List.Pairwise (fun a b => pyStrLe a b = true) l) :
    List.Pairwise (fun a b => pyStrLe a b = true) (insertAsc x l) := by
  induction l with
  | nil => simp [insertAsc]
  | cons y ys ih =>
    obtain ⟨h1, h2⟩ := List.pairwise_cons.mp h
    by_cases hx : pyStrLe x y = true
    · rw [insertAsc, if_pos hx]
      refine List.pairwise_cons.mpr ⟨?_, h⟩
      intro z hz
      rcases List.mem_cons.mp hz with rfl | hz'
      · exact hx
      · exact pyStrLe_trans hx (h1 z hz')
    · rw [insertAsc, if_neg hx]
      refine List.pairwise_cons.mpr ⟨?_, ih h2⟩
      intro z hz
      rcases List.mem_cons.mp ((insertAsc_perm x ys).mem_iff.mp hz) with rfl | hz'
      · exact pyStrLe_total (Bool.eq_false_iff.mpr hx)
      · exact h1 z hz'

theorem sortAsc_pairwise (l : List String) :
    List.Pairwise (fun a b => pyStrLe a b = true) (sortAsc l) := by
  induction l with
  | nil => simp [sortAsc]
  | cons x xs ih =>
    simp only [sortAsc, List.foldr_cons]
    exact insertAsc_pairwise x ih

theorem mem_foldl_unique (l : List String) :
    ∀ (acc : List String) (x : String),
      x ∈ l.foldl (fun acc x => if x ∈ acc then acc else acc ++ [x]) acc
        ↔ x ∈ acc ∨ x ∈ l := by
  induction l with
  | nil => intro acc x; simp
  | cons y ys ih =>
    intro acc x
    simp only [List.foldl_cons]
    rw [ih]
    by_cases hy : y ∈ acc
    · rw [if_pos hy]
      constructor
      · rintro (h | h)
        · exact Or.inl h
        · exact Or.inr (List.mem_cons_of_mem y h)
      · rintro (h | h)
        · exact Or.inl h
        · rcases List.mem_cons.mp h with rfl | h'
          · exact Or.inl hy
          · exact Or.inr h'
    · rw [if_neg hy]
      simp only [List.mem_append, List.mem_singleton, List.mem_cons]
      tauto

theorem mem_uniqueFirstSeen {x : String} {l : List String} :
    x ∈ uniqueFirstSeen l ↔ x ∈ l := by
  simpa [uniqueFirstSeen] using mem_foldl_unique l [] x

theorem nodup_foldl_unique (l : List String) :
    ∀ acc : List String, acc.Nodup →
      (l.foldl (fun acc x => if x ∈ acc then acc else acc ++ [x]) acc).Nodup := by
  induction l with
  | nil => intro acc h; simpa using h
  | cons y ys ih =>
    intro acc h
    simp only [List.foldl_cons]
    by_cases hy : y ∈ acc
    · rw [if_pos hy]
      exact ih acc h
    · rw [if_neg hy]
      refine ih _ ?_
      simp [List.nodup_append, h, hy]

theorem nodup_uniqueFirstSeen (l : List String) : (uniqueFirstSeen l).Nodup :=
  nodup_foldl_unique l [] List.nodup_nil

/-- C6: on a successfully parsed file, `load_data` returns the parsed table
together with a country list that is sorted ascending in code-point order,
has no duplicates, and holds exactly the non-missing values of the
"Country" column; when that column is absent the list is empty (the
membership characterization then makes both sides false). -/
theorem load_countries_sorted_dedup :
    ∀ (fs : String → FileContent) (path : String) (t : Table),
      fs path = FileContent.parsed t →
      (load_data fs path).table = some t
      ∧ List.Pairwise (fun a b => pyStrLe a b = true) (load_data fs path).countries
      ∧ (load_data fs path).countries.Nodup
      ∧ ∀ x, x ∈ (load_data fs path).countries
          ↔ ("Country" ∈ t.cols ∧ x ∈ columnNonMissing t "Country") := by
  intro fs path t h
  by_cases hc : "Country" ∈ t.cols
  · simp only [load_data, h, if_pos hc]
    refine ⟨trivial, sortAsc_pairwise _, ?_, ?_⟩
    · exact (sortAsc_perm _).nodup_iff.mpr (nodup_uniqueFirstSeen _)
    · intro x
      rw [(sortAsc_perm _).mem_iff, mem_uniqueFirstSeen]
      simp [hc]
  · simp only [load_data, h, if_neg hc]
    exact ⟨trivial, by simp, by simp, fun x => by simp [hc]⟩

theorem load_countries_sorted_dedup_witness :
    (load_data (fun _ => FileContent.parsed exampleCountryTable) "p").table
        = some exampleCountryTable
    ∧ ("KR" ∈ (load_data (fun _ => FileContent.parsed exampleCountryTable) "p").countries
        ↔ ("Country" ∈ exampleCountryTable.cols
            ∧ "KR" ∈ columnNonMissing exampleCountryTable "Country")) :=
  ⟨(load_countries_sorted_dedup (fun _ => FileContent.parsed exampleCountryTable)
      "p" exampleCountryTable rfl).1,
   (load_countries_sorted_dedup (fun _ => FileContent.parsed exampleCountryTable)
      "p" exampleCountryTable rfl).2.2.2 "KR"⟩

end StreamitProject
